import Mathlib

/-!
Verification of the Split-Payment repository's distribution engine.

The definitions below are a shallow embedding of the Solidity `Splitter`
and `SplitFactory` contracts (src/contracts) and of the Joi request
validation used by the Express backend (routes/split.js).  Addresses and
token identifiers are modelled as natural numbers; uint256 amounts are
modelled as unbounded naturals (Solidity 0.8 checked arithmetic never
wraps, and the claims quantify over the algorithmic range where no
overflow check fires); external ERC-20 transfers are modelled as
always-succeeding ledger moves, with the transferred amounts recorded in
the emitted events.  Reverting calls are modelled with `Except`: an
`error` result returns no new state, which is exactly the EVM revert
discipline (state unchanged, no events).
-/

namespace SplitPayment

/-- Basis-point denominator: `uint256 private constant BASIS_POINTS = 10000`. -/
def BASIS_POINTS : ℕ := 10000

/-- Revert reasons of the contracts, named after the specification's error
taxonomy where it has a name, and after the Solidity revert string otherwise:
`InvalidShareCount` is the "No recipients" require, `InvalidShareValue` is
"Share cannot be zero", `SharesNotFullyAllocated` is "Shares must sum to
10000", `Inactive` is "Splitter is not active", `ZeroAmount` is "Amount must
be greater than 0", `Unauthorized` is the `onlyOwner` "Only owner" require,
`MustDeactivateFirst` is "Must deactivate first", and
`ArraysLengthMismatch` is "Arrays length mismatch". -/
inductive SplitError where
  | InvalidShareCount
  | InvalidShareValue
  | SharesNotFullyAllocated
  | Inactive
  | ZeroAmount
  | Unauthorized
  | MustDeactivateFirst
  | ArraysLengthMismatch
  deriving DecidableEq, Repr

/-- The `SplitConfig` struct of `ISplitter` (also the storage layout of
`Splitter`): recipient addresses, basis-point shares, payout token, owner,
and the active flag. -/
structure SplitConfig where
  recipients : List ℕ
  shares : List ℕ
  token : ℕ
  owner : ℕ
  active : Bool
  deriving DecidableEq, Repr

/-- Mutable storage of one deployed `Splitter`: its configuration plus the
`totalDistributed` cumulative counter. -/
structure SplitterState where
  config : SplitConfig
  totalDistributed : ℕ
  deriving DecidableEq, Repr

/-- Events emitted by `Splitter`. -/
inductive Event where
  | PaymentReceived (payer amount token : ℕ)
  | Distributed (recipient amount : ℕ)
  | SharesUpdated (recipients shares : List ℕ)
  | EmergencyWithdrawn (owner amount : ℕ)
  deriving DecidableEq, Repr

/-- The share-validation loop shared verbatim by the `Splitter` constructor
and `updateShares`:

    uint256 totalShares = 0;
    for (uint256 i = 0; i < _shares.length; i++) \x7b
        require(_shares[i] > 0, "Share cannot be zero");
        totalShares += _shares[i];
    \x7d
    require(totalShares == BASIS_POINTS, "Shares must sum to 10000");

`acc` is the running `totalShares`.  Shares are uint256, so "greater than
zero" is "not equal to zero". -/
def checkSharesLoop : List ℕ → ℕ → Option SplitError
  | [], acc => if acc = BASIS_POINTS then none else some .SharesNotFullyAllocated
  | s :: rest, acc =>
      if s = 0 then some .InvalidShareValue else checkSharesLoop rest (acc + s)

/-- The specification's `validateShares` operation (section 4.1), exactly the
checks the `Splitter` constructor and `updateShares` run on the share list:
`require(_recipients.length > 0, "No recipients")` followed by
`checkSharesLoop`.  Returns `none` on success. -/
def validateShares (shares : List ℕ) : Option SplitError :=
  if shares.isEmpty then some .InvalidShareCount else checkSharesLoop shares 0

/-- The `Splitter` constructor: length-mismatch and share validation, then
the initial storage (`active` initialised `true`, `totalDistributed` 0). -/
def mkSplitter (recipients shares : List ℕ) (token owner : ℕ) :
    Except SplitError SplitterState :=
  if recipients.length ≠ shares.length then .error .ArraysLengthMismatch
  else
    match validateShares shares with
    | some e => .error e
    | none =>
        .ok { config := { recipients := recipients, shares := shares,
                          token := token, owner := owner, active := true },
              totalDistributed := 0 }

/-- `SplitFactory.createSplitter`: its own length / non-emptiness / sum
checks (the factory does not itself check share positivity), then the
`Splitter` constructor with the caller as owner. -/
def createSplitter (caller : ℕ) (recipients shares : List ℕ) (token : ℕ) :
    Except SplitError SplitterState :=
  if recipients.length ≠ shares.length then .error .ArraysLengthMismatch
  else if recipients.length = 0 then .error .InvalidShareCount
  else if shares.sum ≠ BASIS_POINTS then .error .SharesNotFullyAllocated
  else mkSplitter recipients shares token caller

/-- One loop iteration's proportional amount:
`uint256 shareAmount = (amount * shares[i]) / BASIS_POINTS`. -/
def shareAmount (amount share : ℕ) : ℕ := amount * share / BASIS_POINTS

/-- The distribution loop of `Splitter.distribute`, iterating the share list
in storage order with the running `remainingAmount` accumulator `r`: every
recipient except the last gets `shareAmount`, which is subtracted from `r`;
the last recipient gets the entire current `r`.  Returns the payout list in
iteration order.  (In the loop the last iteration also computes
`shareAmount` before overwriting it with `remainingAmount`; the overwritten
value is unobservable, so it is not modelled.  The uint256 subtraction
`remainingAmount -= shareAmount` cannot underflow for share lists accepted
by `validateShares`, which is proved below, so natural subtraction agrees
with it there.) -/
def payoutLoop (amount : ℕ) : List ℕ → ℕ → List ℕ
  | [], _ => []
  | [_], r => [r]
  | s :: rest, r => shareAmount amount s :: payoutLoop amount rest (r - shareAmount amount s)

/-- `Splitter.distribute`: require `active`, require `amount > 0`, pull
`amount` of the token from the caller (emitting `PaymentReceived`), pay each
recipient its `payoutLoop` amount in storage order (emitting one
`Distributed` event per recipient), and add `amount` to `totalDistributed`.
Token transfers are modelled as succeeding. -/
def distribute (caller amount : ℕ) (st : SplitterState) :
    Except SplitError (SplitterState × List Event) :=
  if st.config.active = false then .error .Inactive
  else if amount = 0 then .error .ZeroAmount
  else
    let pays := payoutLoop amount st.config.shares amount
    .ok ({ st with totalDistributed := st.totalDistributed + amount },
         Event.PaymentReceived caller amount st.config.token ::
           (st.config.recipients.zip pays).map (fun p => Event.Distributed p.1 p.2))

/-- `Splitter.updateShares`: `onlyOwner`, then the same length and share
validation as the constructor; on success replace the recipient and share
lists (only) and emit `SharesUpdated`. -/
def updateShares (caller : ℕ) (newRecipients newShares : List ℕ)
    (st : SplitterState) : Except SplitError (SplitterState × List Event) :=
  if caller ≠ st.config.owner then .error .Unauthorized
  else if newRecipients.length ≠ newShares.length then .error .ArraysLengthMismatch
  else
    match validateShares newShares with
    | some e => .error e
    | none =>
        let cfg := st.config
        .ok ({ st with config := { cfg with recipients := newRecipients, shares := newShares } },
             [Event.SharesUpdated newRecipients newShares])

/-- `Splitter.emergencyWithdraw`: `onlyOwner`, require `!active`; if the
contract's token balance is positive, transfer it all to the owner and emit
`EmergencyWithdrawn`; a zero balance is a silent no-op.  The token ledger is
modelled by the contract balance `bal` and the owner's balance `obal`; the
result carries their new values. -/
def emergencyWithdraw (caller : ℕ) (st : SplitterState) (bal obal : ℕ) :
    Except SplitError (ℕ × ℕ × List Event) :=
  if caller ≠ st.config.owner then .error .Unauthorized
  else if st.config.active = true then .error .MustDeactivateFirst
  else if 0 < bal then .ok (0, obal + bal, [Event.EmergencyWithdrawn st.config.owner bal])
  else .ok (bal, obal, [])

/-- Revert semantics of a `distribute` transaction: an error leaves the
storage unchanged and emits nothing. -/
def runDistribute (caller amount : ℕ) (st : SplitterState) :
    SplitterState × List Event × Option SplitError :=
  match distribute caller amount st with
  | .ok (st2, evs) => (st2, evs, none)
  | .error e => (st, [], some e)

/-- Revert semantics of an `updateShares` transaction. -/
def runUpdateShares (caller : ℕ) (newRecipients newShares : List ℕ)
    (st : SplitterState) : SplitterState × List Event × Option SplitError :=
  match updateShares caller newRecipients newShares st with
  | .ok (st2, evs) => (st2, evs, none)
  | .error e => (st, [], some e)

/-- Revert semantics of an `emergencyWithdraw` transaction over the token
ledger (contract balance, owner balance). -/
def runEmergencyWithdraw (caller : ℕ) (st : SplitterState) (bal obal : ℕ) :
    ℕ × ℕ × List Event × Option SplitError :=
  match emergencyWithdraw caller st bal obal with
  | .ok (b, ob, evs) => (b, ob, evs, none)
  | .error e => (bal, obal, [], some e)

/-- The amounts of the `Distributed` events of an event list, in emission
order. -/
def distributedAmounts (evs : List Event) : List ℕ :=
  evs.filterMap fun e =>
    match e with
    | .Distributed _ a => some a
    | _ => none

/-- The recipients of the `Distributed` events of an event list, in emission
order. -/
def distributedRecipients (evs : List Event) : List ℕ :=
  evs.filterMap fun e =>
    match e with
    | .Distributed r _ => some r
    | _ => none

/-- Total amount paid to one recipient by the `Distributed` events of an
event list. -/
def paidTo (evs : List Event) (rcpt : ℕ) : ℕ :=
  (evs.filterMap fun e =>
    match e with
    | .Distributed r a => if r = rcpt then some a else none
    | _ => none).sum

/-- JavaScript's Math.round on a rational: floor of x plus one half,
rounding halves up.  Percentages are modelled as exact rationals.  The
half is written `mkRat 1 2` (equal to 1/2) so that concrete instances
kernel-evaluate. -/
def jsRound (q : ℚ) : ℤ := ⌊q + mkRat 1 2⌋

/-- The backend handler's percentage-to-share conversion
`Math.round(r.percentage * 100)`, encoded as a uint256 argument (the
validated percentages make it nonnegative). -/
def toBasisPoints (p : ℚ) : ℕ := (jsRound (p * 100)).toNat

/-- Converted share list built by the POST /api/split/create handler:
`recipients.map(r => Math.round(r.percentage * 100))`. -/
def apiShares (ps : List ℚ) : List ℕ := ps.map toBasisPoints

/-- The recipients constraints of `createSplitSchema` (Joi):
`recipients` is an array of 1 to 20 items, each with
`percentage: Joi.number().min(0.01).max(100).required()`.  Only the
percentage dimension is modelled; the address-pattern check is orthogonal
to share validation.  A request passes `validateRequest(createSplitSchema)`
on this dimension exactly when this proposition holds. -/
def createSplitOk (ps : List ℚ) : Prop :=
  1 ≤ ps.length ∧ ps.length ≤ 20 ∧ ∀ p ∈ ps, mkRat 1 100 ≤ p ∧ p ≤ 100

instance (ps : List ℚ) : Decidable (createSplitOk ps) :=
  inferInstanceAs (Decidable (_ ∧ _ ∧ _))

/-- The recipients constraints of `updateSplitSchema` when a recipients
list is supplied: array of 1 to 20 items, percentage in [0.01, 100]. -/
def updateSplitOk (ps : List ℚ) : Prop :=
  1 ≤ ps.length ∧ ps.length ≤ 20 ∧ ∀ p ∈ ps, mkRat 1 100 ≤ p ∧ p ≤ 100

instance (ps : List ℚ) : Decidable (updateSplitOk ps) :=
  inferInstanceAs (Decidable (_ ∧ _ ∧ _))

/-- Sample active configuration: three recipients, shares 33.33 / 33.33 /
33.34 percent. -/
def cfgA : SplitConfig :=
  { recipients := [1, 2, 3], shares := [3333, 3333, 3334],
    token := 7, owner := 9, active := true }

/-- Sample splitter state over `cfgA`. -/
def stA : SplitterState := { config := cfgA, totalDistributed := 0 }

/-- The same recipients and shares as `cfgA` in a different storage order:
recipient 3 first, recipient 2 last. -/
def cfgB : SplitConfig :=
  { recipients := [3, 1, 2], shares := [3334, 3333, 3333],
    token := 7, owner := 9, active := true }

/-- Sample splitter state over `cfgB`. -/
def stB : SplitterState := { config := cfgB, totalDistributed := 0 }

/-- Sample deactivated configuration. -/
def cfgOff : SplitConfig :=
  { recipients := [1, 2], shares := [7000, 3000],
    token := 7, owner := 9, active := false }

/-- Sample splitter state over `cfgOff`. -/
def stOff : SplitterState := { config := cfgOff, totalDistributed := 5 }

/-- The state produced by a successful sample `updateShares` on `stA`. -/
def stAup : SplitterState :=
  { config := { recipients := [4, 5], shares := [6000, 4000],
                token := 7, owner := 9, active := true },
    totalDistributed := 0 }

/-! Helper lemmas about the validation loop. -/

lemma checkSharesLoop_all_pos (shares : List ℕ) : ∀ acc : ℕ, (∀ s ∈ shares, 0 < s) →
    checkSharesLoop shares acc =
      if acc + shares.sum = BASIS_POINTS then none else some .SharesNotFullyAllocated := by
  induction shares with
  | nil => intro acc _; simp [checkSharesLoop]
  | cons s rest ih =>
      intro acc hpos
      have hs : s ≠ 0 := Nat.pos_iff_ne_zero.mp (hpos s (by simp))
      have hrest : ∀ x ∈ rest, 0 < x := fun x hx => hpos x (by simp [hx])
      simp only [checkSharesLoop, hs, if_false, List.sum_cons, ih (acc + s) hrest]
      have : acc + s + rest.sum = acc + (s + rest.sum) := by omega
      rw [this]

lemma checkSharesLoop_has_zero (shares : List ℕ) : ∀ acc : ℕ, (∃ s ∈ shares, s = 0) →
    checkSharesLoop shares acc = some .InvalidShareValue := by
  induction shares with
  | nil => intro acc h; simp at h
  | cons s rest ih =>
      intro acc h
      by_cases hs : s = 0
      · simp [checkSharesLoop, hs]
      · have : ∃ x ∈ rest, x = 0 := by
          rcases h with ⟨x, hx, hx0⟩
          rcases List.mem_cons.mp hx with h1 | h2
          · exact absurd (h1 ▸ hx0) hs
          · exact ⟨x, h2, hx0⟩
        simp [checkSharesLoop, hs, ih (acc + s) this]

lemma validateShares_empty : validateShares [] = some .InvalidShareCount := rfl

lemma validateShares_has_zero (shares : List ℕ) (hne : shares ≠ [])
    (h : ∃ s ∈ shares, s ≤ 0) : validateShares shares = some .InvalidShareValue := by
  have h0 : ∃ s ∈ shares, s = 0 := by
    rcases h with ⟨s, hs, hs0⟩; exact ⟨s, hs, Nat.le_zero.mp hs0⟩
  simp [validateShares, List.isEmpty_iff, hne, checkSharesLoop_has_zero shares 0 h0]

lemma validateShares_bad_sum (shares : List ℕ) (hne : shares ≠ [])
    (hpos : ∀ s ∈ shares, 0 < s) (hsum : shares.sum ≠ BASIS_POINTS) :
    validateShares shares = some .SharesNotFullyAllocated := by
  simp [validateShares, List.isEmpty_iff, hne, checkSharesLoop_all_pos shares 0 hpos, hsum]

lemma validateShares_ok (shares : List ℕ) (hne : shares ≠ [])
    (hpos : ∀ s ∈ shares, 0 < s) (hsum : shares.sum = BASIS_POINTS) :
    validateShares shares = none := by
  simp [validateShares, List.isEmpty_iff, hne, checkSharesLoop_all_pos shares 0 hpos, hsum]

lemma validateShares_none_iff (shares : List ℕ) :
    validateShares shares = none ↔
      shares ≠ [] ∧ (∀ s ∈ shares, 0 < s) ∧ shares.sum = BASIS_POINTS := by
  constructor
  · intro h
    by_cases hne : shares = []
    · rw [hne] at h; simp [validateShares_empty] at h
    by_cases hpos : ∀ s ∈ shares, 0 < s
    · by_cases hsum : shares.sum = BASIS_POINTS
      · exact ⟨hne, hpos, hsum⟩
      · rw [validateShares_bad_sum shares hne hpos hsum] at h; cases h
    · have : ∃ s ∈ shares, s ≤ 0 := by
        push_neg at hpos
        rcases hpos with ⟨s, hs, hs0⟩
        exact ⟨s, hs, hs0⟩
      rw [validateShares_has_zero shares hne this] at h; cases h
  · rintro ⟨hne, hpos, hsum⟩
    exact validateShares_ok shares hne hpos hsum

/-! Helper lemmas about the distribution loop. -/

lemma payoutLoop_eq_closed (a : ℕ) (l : List ℕ) : ∀ r : ℕ, l ≠ [] →
    payoutLoop a l r =
      l.dropLast.map (shareAmount a) ++ [r - (l.dropLast.map (shareAmount a)).sum] := by
  induction l with
  | nil => intro r h; exact absurd rfl h
  | cons s rest ih =>
      intro r _
      cases rest with
      | nil => simp [payoutLoop]
      | cons t ts =>
          have hne : t :: ts ≠ [] := by simp
          simp only [payoutLoop, ih (r - shareAmount a s) hne, List.dropLast_cons₂,
            List.map_cons, List.sum_cons, List.cons_append]
          have : r - shareAmount a s -
              ((t :: ts).dropLast.map (shareAmount a)).sum =
              r - (shareAmount a s + ((t :: ts).dropLast.map (shareAmount a)).sum) := by
            omega
          rw [this]

lemma payoutLoop_length (a : ℕ) (l : List ℕ) : ∀ r : ℕ, (payoutLoop a l r).length = l.length := by
  induction l with
  | nil => intro r; simp [payoutLoop]
  | cons s rest ih =>
      intro r
      cases rest with
      | nil => simp [payoutLoop]
      | cons t ts => simp [payoutLoop, ih]

lemma sum_map_shareAmount_le (a : ℕ) (l : List ℕ) :
    (l.map (shareAmount a)).sum ≤ a * l.sum / BASIS_POINTS := by
  induction l with
  | nil => simp
  | cons s rest ih =>
      simp only [List.map_cons, List.sum_cons, List.sum_cons, shareAmount]
      calc a * s / BASIS_POINTS + (rest.map (shareAmount a)).sum
          ≤ a * s / BASIS_POINTS + a * rest.sum / BASIS_POINTS := Nat.add_le_add_left ih _
        _ ≤ (a * s + a * rest.sum) / BASIS_POINTS := Nat.add_div_le_add_div _ _ _
        _ = a * (s + rest.sum) / BASIS_POINTS := by rw [Nat.mul_add]

lemma sum_map_shareAmount_all_le (a : ℕ) (l : List ℕ) (hsum : l.sum = BASIS_POINTS) :
    (l.map (shareAmount a)).sum ≤ a := by
  have h := sum_map_shareAmount_le a l
  rw [hsum, Nat.mul_div_cancel a (by norm_num [BASIS_POINTS])] at h
  exact h

lemma sum_shareAmount_split (a : ℕ) (l : List ℕ) (hne : l ≠ []) :
    (l.map (shareAmount a)).sum =
      (l.dropLast.map (shareAmount a)).sum + shareAmount a (l.getLast hne) := by
  conv_lhs => rw [← List.dropLast_append_getLast hne]
  rw [List.map_append, List.sum_append]
  simp

lemma sum_map_shareAmount_dropLast_le (a : ℕ) (l : List ℕ) (hne : l ≠ [])
    (hsum : l.sum = BASIS_POINTS) :
    (l.dropLast.map (shareAmount a)).sum ≤ a := by
  have h1 := sum_map_shareAmount_all_le a l hsum
  rw [sum_shareAmount_split a l hne] at h1
  omega

lemma payoutLoop_sum (a : ℕ) (l : List ℕ) (hne : l ≠ []) (hsum : l.sum = BASIS_POINTS) :
    (payoutLoop a l a).sum = a := by
  rw [payoutLoop_eq_closed a l a hne, List.sum_append, List.sum_cons, List.sum_nil]
  have := sum_map_shareAmount_dropLast_le a l hne hsum
  omega

lemma list_sum_map_add {α : Type} (l : List α) (f g : α → ℕ) :
    (l.map fun x => f x + g x).sum = (l.map f).sum + (l.map g).sum := by
  induction l with
  | nil => simp
  | cons x rest ih => simp only [List.map_cons, List.sum_cons, ih]; omega

lemma list_sum_map_mul_left (c : ℕ) (f : ℕ → ℕ) (l : List ℕ) :
    (l.map fun s => c * f s).sum = c * (l.map f).sum := by
  induction l with
  | nil => simp
  | cons x rest ih => simp only [List.map_cons, List.sum_cons, Nat.mul_add, ih]

lemma list_sum_map_const (c : ℕ) (l : List ℕ) :
    (l.map fun _ => c).sum = l.length * c := by
  induction l with
  | nil => simp
  | cons x rest ih => simp only [List.map_cons, List.sum_cons, List.length_cons, ih]; ring

lemma list_sum_map_congr (l : List ℕ) (f g : ℕ → ℕ) (h : ∀ s ∈ l, f s = g s) :
    (l.map f).sum = (l.map g).sum := by
  rw [List.map_congr_left h]

lemma amount_le_sum_shareAmount_add (a : ℕ) (l : List ℕ) (hne : l ≠ [])
    (hsum : l.sum = BASIS_POINTS) :
    a ≤ (l.map (shareAmount a)).sum + (l.length - 1) := by
  have hsplit : ∀ s ∈ l, a * s = BASIS_POINTS * (shareAmount a s) + (a * s) % BASIS_POINTS := by
    intro s _
    rw [shareAmount]
    exact (Nat.div_add_mod (a * s) BASIS_POINTS).symm
  have hmaps : (l.map (fun s => a * s)).sum =
      (l.map (fun s => BASIS_POINTS * (shareAmount a s) + (a * s) % BASIS_POINTS)).sum :=
    list_sum_map_congr l _ _ hsplit
  have htot : a * l.sum = (l.map (fun s => a * s)).sum := by
    rw [list_sum_map_mul_left a (fun s => s) l]
    congr 1
    exact (congrArg List.sum (List.map_id' l)).symm
  have hsum2 : (l.map (fun s => BASIS_POINTS * (shareAmount a s) + (a * s) % BASIS_POINTS)).sum =
      BASIS_POINTS * (l.map (shareAmount a)).sum +
        (l.map (fun s => (a * s) % BASIS_POINTS)).sum := by
    rw [list_sum_map_add l (fun s => BASIS_POINTS * (shareAmount a s))
      (fun s => (a * s) % BASIS_POINTS), list_sum_map_mul_left BASIS_POINTS (shareAmount a) l]
  have hmod : (l.map (fun s => (a * s) % BASIS_POINTS)).sum ≤ l.length * (BASIS_POINTS - 1) := by
    have hpt : ∀ s ∈ l, (a * s) % BASIS_POINTS ≤ BASIS_POINTS - 1 := by
      intro s _
      have := Nat.mod_lt (a * s) (show 0 < BASIS_POINTS by norm_num [BASIS_POINTS])
      omega
    calc (l.map (fun s => (a * s) % BASIS_POINTS)).sum
        ≤ (l.map (fun _ => BASIS_POINTS - 1)).sum := List.sum_le_sum hpt
      _ = l.length * (BASIS_POINTS - 1) := list_sum_map_const _ l
  have hlen : 1 ≤ l.length := by
    cases l with
    | nil => exact absurd rfl hne
    | cons x rest => simp
  have hmain : a * BASIS_POINTS ≤
      BASIS_POINTS * (l.map (shareAmount a)).sum + l.length * (BASIS_POINTS - 1) := by
    calc a * BASIS_POINTS = a * l.sum := by rw [hsum]
      _ = (l.map (fun s => a * s)).sum := htot
      _ = BASIS_POINTS * (l.map (shareAmount a)).sum +
            (l.map (fun s => (a * s) % BASIS_POINTS)).sum := by rw [hmaps, hsum2]
      _ ≤ _ := Nat.add_le_add_left hmod _
  have hbp : BASIS_POINTS = 10000 := rfl
  rw [hbp] at hmain
  omega

lemma distributedAmounts_shape (payer amt tok : ℕ) (rs pays : List ℕ)
    (h : pays.length ≤ rs.length) :
    distributedAmounts (Event.PaymentReceived payer amt tok ::
      (rs.zip pays).map fun p => Event.Distributed p.1 p.2) = pays := by
  simp only [distributedAmounts, List.filterMap_cons, List.filterMap_map]
  have : ∀ p : ℕ × ℕ,
      ((fun e => match e with
        | Event.Distributed _ a => some a
        | _ => none) ∘ fun p : ℕ × ℕ => Event.Distributed p.1 p.2) p = some p.2 := by
    intro p; rfl
  rw [List.filterMap_congr (fun p _ => this p),
    show (fun p : ℕ × ℕ => some p.2) = some ∘ (fun p : ℕ × ℕ => p.2) from rfl,
    List.filterMap_eq_map]
  exact List.map_snd_zip rs pays h

lemma distributedRecipients_shape (payer amt tok : ℕ) (rs pays : List ℕ)
    (h : rs.length ≤ pays.length) :
    distributedRecipients (Event.PaymentReceived payer amt tok ::
      (rs.zip pays).map fun p => Event.Distributed p.1 p.2) = rs := by
  simp only [distributedRecipients, List.filterMap_cons, List.filterMap_map]
  have : ∀ p : ℕ × ℕ,
      ((fun e => match e with
        | Event.Distributed r _ => some r
        | _ => none) ∘ fun p : ℕ × ℕ => Event.Distributed p.1 p.2) p = some p.1 := by
    intro p; rfl
  rw [List.filterMap_congr (fun p _ => this p),
    show (fun p : ℕ × ℕ => some p.1) = some ∘ (fun p : ℕ × ℕ => p.1) from rfl,
    List.filterMap_eq_map]
  exact List.map_fst_zip rs pays h

lemma distribute_ok_shape (caller amount : ℕ) (st : SplitterState)
    (hactive : st.config.active = true) (hamount : 0 < amount) :
    distribute caller amount st =
      .ok ({ st with totalDistributed := st.totalDistributed + amount },
        Event.PaymentReceived caller amount st.config.token ::
          (st.config.recipients.zip (payoutLoop amount st.config.shares amount)).map
            fun p => Event.Distributed p.1 p.2) := by
  have h0 : amount ≠ 0 := Nat.pos_iff_ne_zero.mp hamount
  simp [distribute, hactive, h0]

/-! Claim theorems. -/

/-- C1: for every configuration with equal-length recipient and share lists
whose shares are positive and sum to 10000 and whose active flag is true,
and every totalAmount greater than 0, `distribute` succeeds, the sum of the
per-recipient paid amounts in its `Distributed` events equals totalAmount
exactly, and `totalDistributed` increases by exactly totalAmount. -/
theorem distribute_conservation (st : SplitterState) (caller amount : ℕ)
    (hlen : st.config.recipients.length = st.config.shares.length)
    (hpos : ∀ s ∈ st.config.shares, 0 < s)
    (hsum : st.config.shares.sum = BASIS_POINTS)
    (hactive : st.config.active = true)
    (hamount : 0 < amount) :
    ∃ st2 evs, distribute caller amount st = .ok (st2, evs) ∧
      (distributedAmounts evs).sum = amount ∧
      st2.totalDistributed = st.totalDistributed + amount := by
  have hne : st.config.shares ≠ [] := by
    intro h; rw [h] at hsum; simp [BASIS_POINTS] at hsum
  refine ⟨_, _, distribute_ok_shape caller amount st hactive hamount, ?_, rfl⟩
  have hplen : (payoutLoop amount st.config.shares amount).length ≤
      st.config.recipients.length := by
    rw [payoutLoop_length, hlen]
  rw [distributedAmounts_shape _ _ _ _ _ hplen]
  exact payoutLoop_sum amount st.config.shares hne hsum

/-- C1 witness: conservation at the sample configuration `stA` with
totalAmount 100. -/
theorem distribute_conservation_witness :
    ∃ st2 evs, distribute 0 100 stA = .ok (st2, evs) ∧
      (distributedAmounts evs).sum = 100 ∧
      st2.totalDistributed = stA.totalDistributed + 100 :=
  distribute_conservation stA 0 100 (by decide) (by decide) (by decide)
    (by decide) (by decide)

/-- C4: `validateShares` fails with InvalidShareCount on the empty list,
with InvalidShareValue when some entry is zero or less, otherwise with
SharesNotFullyAllocated when the entries do not sum to 10000 (in
particular sums 9999 and 10001 are rejected), and succeeds in every other
case; and the `Splitter` constructor accepts a configuration only if
`validateShares` succeeds on its share list. -/
theorem validateShares_rule :
    (∀ shares : List ℕ, shares = [] →
      validateShares shares = some .InvalidShareCount) ∧
    (∀ shares : List ℕ, shares ≠ [] → (∃ s ∈ shares, s ≤ 0) →
      validateShares shares = some .InvalidShareValue) ∧
    (∀ shares : List ℕ, shares ≠ [] → (∀ s ∈ shares, 0 < s) →
      shares.sum ≠ 10000 →
      validateShares shares = some .SharesNotFullyAllocated) ∧
    (∀ shares : List ℕ, shares ≠ [] → (∀ s ∈ shares, 0 < s) →
      shares.sum = 10000 → validateShares shares = none) ∧
    validateShares [9999] = some .SharesNotFullyAllocated ∧
    validateShares [10001] = some .SharesNotFullyAllocated ∧
    (∀ (recipients shares : List ℕ) (token owner : ℕ) (st : SplitterState),
      mkSplitter recipients shares token owner = .ok st →
      validateShares shares = none) := by
  refine ⟨?_, ?_, ?_, ?_, by decide, by decide, ?_⟩
  · intro shares h; rw [h]; exact validateShares_empty
  · intro shares hne h; exact validateShares_has_zero shares hne h
  · intro shares hne hpos hsum; exact validateShares_bad_sum shares hne hpos hsum
  · intro shares hne hpos hsum; exact validateShares_ok shares hne hpos hsum
  · intro recipients shares token owner st h
    by_cases hl : recipients.length ≠ shares.length
    · simp [mkSplitter, hl] at h
    · cases hv : validateShares shares with
      | some e => simp [mkSplitter, hl, hv] at h
      | none => rfl

/-- C4 witness: the four cases of the rule at concrete share lists. -/
theorem validateShares_rule_witness :
    validateShares [] = some .InvalidShareCount ∧
    validateShares [0, 10000] = some .InvalidShareValue ∧
    validateShares [5000, 4999] = some .SharesNotFullyAllocated ∧
    validateShares [7000, 3000] = none :=
  ⟨validateShares_rule.1 [] rfl,
   validateShares_rule.2.1 [0, 10000] (by decide) ⟨0, by decide, by decide⟩,
   validateShares_rule.2.2.1 [5000, 4999] (by decide) (by decide) (by decide),
   validateShares_rule.2.2.2.1 [7000, 3000] (by decide) (by decide) (by decide)⟩

/-- C5: a `distribute` transaction against an inactive configuration fails
with Inactive, and against an active configuration with amount 0 fails with
ZeroAmount; in either failure case the stored state is unchanged and no
event is emitted. -/
theorem distribute_failure_atomicity (st : SplitterState) (caller amount : ℕ) :
    (st.config.active = false →
      runDistribute caller amount st = (st, [], some .Inactive)) ∧
    (st.config.active = true → amount = 0 →
      runDistribute caller amount st = (st, [], some .ZeroAmount)) := by
  constructor
  · intro h; simp [runDistribute, distribute, h]
  · intro h h0; simp [runDistribute, distribute, h, h0]

/-- C5 witness: the inactive sample state rejects with Inactive, and the
active sample state rejects amount 0 with ZeroAmount, both unchanged. -/
theorem distribute_failure_atomicity_witness :
    runDistribute 0 3 stOff = (stOff, [], some .Inactive) ∧
    runDistribute 0 0 stA = (stA, [], some .ZeroAmount) :=
  ⟨(distribute_failure_atomicity stOff 0 3).1 rfl,
   (distribute_failure_atomicity stA 0 0).2 rfl rfl⟩

/-- C9: a successful `updateShares` replaces exactly the recipient and
share lists; token, owner, the active flag and `totalDistributed` are
unchanged. -/
theorem updateShares_frame (st : SplitterState) (caller : ℕ)
    (nr ns : List ℕ) (st2 : SplitterState) (evs : List Event)
    (h : updateShares caller nr ns st = .ok (st2, evs)) :
    st2.config.recipients = nr ∧ st2.config.shares = ns ∧
    st2.config.token = st.config.token ∧
    st2.config.owner = st.config.owner ∧
    st2.config.active = st.config.active ∧
    st2.totalDistributed = st.totalDistributed := by
  by_cases hc : caller ≠ st.config.owner
  · simp [updateShares, hc] at h
  · by_cases hl : nr.length ≠ ns.length
    · simp [updateShares, hc, hl] at h
    · cases hv : validateShares ns with
      | some e => simp [updateShares, hc, hl, hv] at h
      | none =>
          simp only [updateShares, hc, hl, hv, if_false, ite_false] at h
          have h2 := (Except.ok.injEq _ _).mp h
          have h3 := (Prod.mk.injEq _ _ _ _).mp h2
          rw [← h3.1]
          exact ⟨rfl, rfl, rfl, rfl, rfl, rfl⟩

/-- C9 witness: the frame property at a concrete successful update of
`stA` by its owner. -/
theorem updateShares_frame_witness :
    stAup.config.recipients = [4, 5] ∧ stAup.config.shares = [6000, 4000] ∧
    stAup.config.token = stA.config.token ∧
    stAup.config.owner = stA.config.owner ∧
    stAup.config.active = stA.config.active ∧
    stAup.totalDistributed = stA.totalDistributed :=
  updateShares_frame stA 9 [4, 5] [6000, 4000] stAup
    [Event.SharesUpdated [4, 5] [6000, 4000]] rfl

/-- C6: an `updateShares` transaction by a caller other than the owner
fails with Unauthorized leaving the configuration unchanged; an owner call
whose new lists fail validation reports that validation error and leaves
the prior recipients and shares unchanged; in particular new shares
summing to 9999 report SharesNotFullyAllocated with no replacement. -/
theorem updateShares_auth_atomicity (st : SplitterState) (caller : ℕ)
    (nr ns : List ℕ) :
    (caller ≠ st.config.owner →
      runUpdateShares caller nr ns st = (st, [], some .Unauthorized)) ∧
    (∀ e : SplitError, caller = st.config.owner → nr.length = ns.length →
      validateShares ns = some e →
      runUpdateShares caller nr ns st = (st, [], some e)) ∧
    (caller = st.config.owner → nr.length = ns.length → ns ≠ [] →
      (∀ s ∈ ns, 0 < s) → ns.sum = 9999 →
      runUpdateShares caller nr ns st = (st, [], some .SharesNotFullyAllocated)) := by
  refine ⟨?_, ?_, ?_⟩
  · intro hc; simp [runUpdateShares, updateShares, hc]
  · intro e hc hl hv; simp [runUpdateShares, updateShares, hc, hl, hv]
  · intro hc hl hne hpos hsum
    have hv : validateShares ns = some .SharesNotFullyAllocated :=
      validateShares_bad_sum ns hne hpos (by rw [hsum]; decide)
    simp [runUpdateShares, updateShares, hc, hl, hv]

/-- C6 witness: a non-owner call on `stA` is Unauthorized and unchanged;
an owner call with shares summing to 9999 reports SharesNotFullyAllocated
and leaves `stA` unchanged. -/
theorem updateShares_auth_atomicity_witness :
    runUpdateShares 8 [1] [10000] stA = (stA, [], some .Unauthorized) ∧
    runUpdateShares 9 [1] [9999] stA = (stA, [], some .SharesNotFullyAllocated) :=
  ⟨(updateShares_auth_atomicity stA 8 [1] [10000]).1 (by decide),
   (updateShares_auth_atomicity stA 9 [1] [9999]).2.2 rfl rfl (by decide)
     (by decide) rfl⟩

/-- C8: an `emergencyWithdraw` transaction while the active flag is true
fails and changes nothing, with revert reason MustDeactivateFirst when the
caller is the owner; when inactive and called by the owner it transfers
the contract's entire token balance to the owner, and it is a silent
no-op (no event, no transfer) when that balance is zero. -/
theorem emergencyWithdraw_guarded (st : SplitterState) (caller bal obal : ℕ) :
    (st.config.active = true →
      ∃ e, runEmergencyWithdraw caller st bal obal = (bal, obal, [], some e)) ∧
    (st.config.active = true → caller = st.config.owner →
      runEmergencyWithdraw caller st bal obal =
        (bal, obal, [], some .MustDeactivateFirst)) ∧
    (st.config.active = false → caller = st.config.owner → 0 < bal →
      runEmergencyWithdraw caller st bal obal =
        (0, obal + bal, [Event.EmergencyWithdrawn st.config.owner bal], none)) ∧
    (st.config.active = false → caller = st.config.owner → bal = 0 →
      runEmergencyWithdraw caller st bal obal = (bal, obal, [], none)) := by
  refine ⟨?_, ?_, ?_, ?_⟩
  · intro ha
    by_cases hc : caller ≠ st.config.owner
    · exact ⟨.Unauthorized, by simp [runEmergencyWithdraw, emergencyWithdraw, hc]⟩
    · exact ⟨.MustDeactivateFirst,
        by simp [runEmergencyWithdraw, emergencyWithdraw, hc, ha]⟩
  · intro ha hc; simp [runEmergencyWithdraw, emergencyWithdraw, hc, ha]
  · intro ha hc hb
    have hb0 : ¬ bal = 0 := by omega
    simp [runEmergencyWithdraw, emergencyWithdraw, hc, ha, hb]
  · intro ha hc hb
    simp [runEmergencyWithdraw, emergencyWithdraw, hc, ha, hb]

/-- C8 witness: owner call on the active sample reverts MustDeactivateFirst
unchanged; owner call on the inactive sample with balance 5 moves the whole
balance to the owner; with balance 0 it is a no-op. -/
theorem emergencyWithdraw_guarded_witness :
    runEmergencyWithdraw 9 stA 5 2 = (5, 2, [], some .MustDeactivateFirst) ∧
    runEmergencyWithdraw 9 stOff 5 2 =
      (0, 2 + 5, [Event.EmergencyWithdrawn stOff.config.owner 5], none) ∧
    runEmergencyWithdraw 9 stOff 0 2 = (0, 2, [], none) :=
  ⟨(emergencyWithdraw_guarded stA 9 5 2).2.1 rfl rfl,
   (emergencyWithdraw_guarded stOff 9 5 2).2.2.1 rfl rfl (by decide),
   (emergencyWithdraw_guarded stOff 9 0 2).2.2.2 rfl rfl rfl⟩

/-- C2: for every valid active configuration and positive totalAmount,
`distribute` pays every recipient except the last, in the stored order,
exactly floor(totalAmount times its share over 10000), pays the last
recipient the remaining accumulator (totalAmount minus the earlier floor
shares), and emits exactly one `Distributed` event per recipient in that
order; and on concrete reorderings of the same shares the recipient that
absorbs the rounding remainder changes deterministically: with shares
33.33/33.33/33.34 percent and totalAmount 100, recipient 3 receives 34
when stored last (`stA`) but 33 when stored first (`stB`), where
recipient 2, now last, receives 34. -/
theorem distribute_algorithm_steps :
    (∀ (st : SplitterState) (caller amount : ℕ),
      st.config.recipients.length = st.config.shares.length →
      (∀ s ∈ st.config.shares, 0 < s) →
      st.config.shares.sum = BASIS_POINTS →
      st.config.active = true → 0 < amount →
      ∃ st2 evs, distribute caller amount st = .ok (st2, evs) ∧
        distributedAmounts evs =
          st.config.shares.dropLast.map (shareAmount amount) ++
            [amount - (st.config.shares.dropLast.map (shareAmount amount)).sum] ∧
        distributedRecipients evs = st.config.recipients) ∧
    (paidTo (runDistribute 0 100 stA).2.1 3 = 34 ∧
     paidTo (runDistribute 0 100 stB).2.1 3 = 33 ∧
     paidTo (runDistribute 0 100 stA).2.1 2 = 33 ∧
     paidTo (runDistribute 0 100 stB).2.1 2 = 34) := by
  constructor
  · intro st caller amount hlen hpos hsum hactive hamount
    have hne : st.config.shares ≠ [] := by
      intro h; rw [h] at hsum; simp [BASIS_POINTS] at hsum
    refine ⟨_, _, distribute_ok_shape caller amount st hactive hamount, ?_, ?_⟩
    · have hplen : (payoutLoop amount st.config.shares amount).length ≤
          st.config.recipients.length := by
        rw [payoutLoop_length, hlen]
      rw [distributedAmounts_shape _ _ _ _ _ hplen]
      exact payoutLoop_eq_closed amount st.config.shares amount hne
    · have hplen : st.config.recipients.length ≤
          (payoutLoop amount st.config.shares amount).length := by
        rw [payoutLoop_length, hlen]
      exact distributedRecipients_shape _ _ _ _ _ hplen
  · exact ⟨by decide, by decide, by decide, by decide⟩

/-- C2 witness: the stepwise characterisation instantiated at `stB` with
totalAmount 100. -/
theorem distribute_algorithm_steps_witness :
    ∃ st2 evs, distribute 0 100 stB = .ok (st2, evs) ∧
      distributedAmounts evs =
        stB.config.shares.dropLast.map (shareAmount 100) ++
          [100 - (stB.config.shares.dropLast.map (shareAmount 100)).sum] ∧
      distributedRecipients evs = stB.config.recipients :=
  distribute_algorithm_steps.1 stB 0 100 (by decide) (by decide) (by decide)
    (by decide) (by decide)

/-- C7: for every valid active configuration and positive totalAmount, the
amount paid to the last recipient is at least its proportional floor share
and exceeds it by at most recipientCount minus 1 smallest units. -/
theorem distribute_remainder_bound (st : SplitterState) (caller amount : ℕ)
    (hlen : st.config.recipients.length = st.config.shares.length)
    (hpos : ∀ s ∈ st.config.shares, 0 < s)
    (hsum : st.config.shares.sum = BASIS_POINTS)
    (hactive : st.config.active = true)
    (hamount : 0 < amount) :
    ∃ st2 evs, distribute caller amount st = .ok (st2, evs) ∧
      shareAmount amount (st.config.shares.getLast?.getD 0) ≤
        (distributedAmounts evs).getLast?.getD 0 ∧
      (distributedAmounts evs).getLast?.getD 0 -
        shareAmount amount (st.config.shares.getLast?.getD 0) ≤
        st.config.recipients.length - 1 := by
  have hne : st.config.shares ≠ [] := by
    intro h; rw [h] at hsum; simp [BASIS_POINTS] at hsum
  refine ⟨_, _, distribute_ok_shape caller amount st hactive hamount, ?_⟩
  have hplen : (payoutLoop amount st.config.shares amount).length ≤
      st.config.recipients.length := by
    rw [payoutLoop_length, hlen]
  rw [distributedAmounts_shape _ _ _ _ _ hplen,
    payoutLoop_eq_closed amount st.config.shares amount hne]
  rw [List.getLast?_concat, List.getLast?_eq_getLast _ hne]
  simp only [Option.getD_some]
  have hsplit := sum_shareAmount_split amount st.config.shares hne
  have hall := sum_map_shareAmount_all_le amount st.config.shares hsum
  have hup := amount_le_sum_shareAmount_add amount st.config.shares hne hsum
  rw [hlen]
  omega

/-- C7 witness: the remainder bound at the sample configuration `stA` with
totalAmount 100. -/
theorem distribute_remainder_bound_witness :
    ∃ st2 evs, distribute 0 100 stA = .ok (st2, evs) ∧
      shareAmount 100 (stA.config.shares.getLast?.getD 0) ≤
        (distributedAmounts evs).getLast?.getD 0 ∧
      (distributedAmounts evs).getLast?.getD 0 -
        shareAmount 100 (stA.config.shares.getLast?.getD 0) ≤
        stA.config.recipients.length - 1 :=
  distribute_remainder_bound stA 0 100 (by decide) (by decide) (by decide)
    (by decide) (by decide)

lemma toBasisPoints_pos (p : ℚ) (hp : mkRat 1 100 ≤ p) : 0 < toBasisPoints p := by
  have hq : (mkRat 1 100 : ℚ) = 1 / 100 := by norm_num [Rat.mkRat_eq_div]
  rw [hq] at hp
  have h1 : (1 : ℚ) ≤ p * 100 := by linarith
  have hhalf : (mkRat 1 2 : ℚ) = 1 / 2 := by norm_num [Rat.mkRat_eq_div]
  have h2 : (1 : ℤ) ≤ jsRound (p * 100) := by
    rw [jsRound, hhalf]
    exact Int.le_floor.mpr (by push_cast; linarith)
  simp only [toBasisPoints]
  omega

/-- C3 counterexample: a single recipient with percentage 50 passes the
off-chain create-split request validation, its converted basis-point share
list is [5000], and the on-chain creation check rejects that list with
SharesNotFullyAllocated — so off-chain acceptance does not imply on-chain
acceptance. -/
theorem offchain_onchain_divergence :
    createSplitOk [(50 : ℚ)] ∧
    apiShares [(50 : ℚ)] = [5000] ∧
    createSplitter 0 [1] [5000] 0 = .error .SharesNotFullyAllocated := by
  refine ⟨by decide, ?_, rfl⟩
  simp only [apiShares, List.map_cons, List.map_nil]
  norm_num [toBasisPoints, jsRound, Rat.mkRat_eq_div]
  decide

/-- C3 amended: for every recipients list accepted by the off-chain
create-split validation (with any same-length address list), every
converted basis-point share is positive, and the on-chain creation check
accepts the converted shares exactly when they sum to 10000; the off-chain
layer does not itself enforce that sum, so the two acceptance checks
diverge (see the counterexample). -/
theorem offchain_onchain_validation (ps : List ℚ) (addrs : List ℕ)
    (caller token : ℕ)
    (hlen : addrs.length = ps.length) (hok : createSplitOk ps) :
    (∀ s ∈ apiShares ps, 0 < s) ∧
    ((∃ st, createSplitter caller addrs (apiShares ps) token = .ok st) ↔
      (apiShares ps).sum = BASIS_POINTS) := by
  obtain ⟨h1, h2, h3⟩ := hok
  have hpos : ∀ s ∈ apiShares ps, 0 < s := by
    intro s hs
    rw [apiShares, List.mem_map] at hs
    obtain ⟨p, hp, rfl⟩ := hs
    exact toBasisPoints_pos p (h3 p hp).1
  have hlen2 : addrs.length = (apiShares ps).length := by
    rw [apiShares, List.length_map]; exact hlen
  have hlenne : ¬ addrs.length ≠ (apiShares ps).length := by simp [hlen2]
  have haddr0 : ¬ addrs.length = 0 := by rw [hlen]; omega
  have hne : apiShares ps ≠ [] := by
    rw [apiShares]
    intro h
    rw [List.map_eq_nil_iff] at h
    rw [h] at h1
    simp at h1
  refine ⟨hpos, ?_, ?_⟩
  · rintro ⟨st, hst⟩
    by_cases hs : (apiShares ps).sum = BASIS_POINTS
    · exact hs
    · simp [createSplitter, hlenne, haddr0, hs] at hst
  · intro hs
    have hv : validateShares (apiShares ps) = none :=
      validateShares_ok _ hne hpos hs
    refine ⟨{ config := { recipients := addrs, shares := apiShares ps,
                          token := token, owner := caller, active := true },
              totalDistributed := 0 }, ?_⟩
    simp [createSplitter, mkSplitter, hlenne, haddr0, hs, hlen2, hv, hne]

/-- C3 witness: the amended equivalence at percentages 70 and 30 with two
addresses. -/
theorem offchain_onchain_validation_witness :
    (∀ s ∈ apiShares [(70 : ℚ), 30], 0 < s) ∧
    ((∃ st, createSplitter 0 [1, 2] (apiShares [(70 : ℚ), 30]) 0 = .ok st) ↔
      (apiShares [(70 : ℚ), 30]).sum = BASIS_POINTS) :=
  offchain_onchain_validation [(70 : ℚ), 30] [1, 2] 0 0 (by decide) (by decide)

/-- C10: both backend request schemas reject every recipients list with
more than 20 or fewer than 1 entries, while the on-chain creation path
accepts a valid 50-recipient configuration. -/
theorem api_recipient_count_limit :
    (∀ ps : List ℚ, 20 < ps.length → ¬ createSplitOk ps ∧ ¬ updateSplitOk ps) ∧
    (∀ ps : List ℚ, ps.length < 1 → ¬ createSplitOk ps ∧ ¬ updateSplitOk ps) ∧
    (∃ st, createSplitter 0 (List.range 50) (List.replicate 50 200) 0 = .ok st) := by
  refine ⟨?_, ?_, ⟨_, rfl⟩⟩
  · intro ps h
    constructor
    · rintro ⟨_, hc, _⟩; omega
    · rintro ⟨_, hc, _⟩; omega
  · intro ps h
    constructor
    · rintro ⟨hc, _, _⟩; omega
    · rintro ⟨hc, _, _⟩; omega

/-- C10 witness: a 21-entry list and the empty list are both rejected by
both schemas. -/
theorem api_recipient_count_limit_witness :
    (¬ createSplitOk (List.replicate 21 (1 : ℚ)) ∧
     ¬ updateSplitOk (List.replicate 21 (1 : ℚ))) ∧
    (¬ createSplitOk ([] : List ℚ) ∧ ¬ updateSplitOk ([] : List ℚ)) :=
  ⟨api_recipient_count_limit.1 (List.replicate 21 1) (by decide),
   api_recipient_count_limit.2.1 [] (by decide)⟩

end SplitPayment
